import Mathlib

/-!
Shallow embedding of the iddqd tournament subsystem and its storage layers.

The embedding covers:
* the tournament elimination engine (`src/unnamed/part_007`, originally
  `features/tournament/game.ts`): `processUserRoll`, `endRound`,
  `cancelTournament`, modelled as pure state transformers over an
  `EngineState` that stands for the slice of the key-value store the engine
  reads and writes (its config record, its per-user roll hash, its round
  records);
* the tournament store (`src/src/features/tournament/storage.ts`): each
  operation is modelled over an explicit key-value client value, with the
  client's possible infrastructure faults made explicit in an `Except`
  result, so that the catch/rethrow structure of every operation is visible;
* the storage facade (`src/src/services/storage.ts`) and the game-state
  manager (`src/src/services/gameStateManager.ts`): modelled over a two-tier
  `FacadeState` with explicit availability flags for the cache tier and the
  disk tier.

JavaScript integers (timestamps, roll values, counters) are modelled as
`Nat`; all quantities involved are non-negative and far below 2^53, so JS
number arithmetic on them is exact — with one exception:
`Math.floor(n * (pct / 100))` is NOT the exact `n * pct / 100`, because
`pct / 100` is itself rounded to a binary64 double before the
multiplication; that computation is modelled exactly by `jsFloorPct`
below. JS `Array.prototype.sort` is a stable sort; it is modelled with
`List.insertionSort`, which is stable for the same comparator preorder and
therefore produces the same list.
-/

namespace Iddqd

/-- Tournament status enum (`types/Tournament.ts`, values checked by
`tournament.spec.ts`). -/
inductive TournamentStatus
  | setup
  | active
  | round_ending
  | completed
  | cancelled
deriving DecidableEq

/-- `TournamentConfig` record. Timestamps are epoch milliseconds as `Nat`. -/
structure TournamentConfig where
  id : String
  name : String
  maxRoll : Nat
  rollLimit : Nat
  deadline : Nat
  currentRound : Nat
  status : TournamentStatus
  channelId : String
  createdAt : Nat
  updatedAt : Nat
deriving DecidableEq

/-- `UserRoll` record: one per (tournament, user). -/
structure UserRoll where
  userId : String
  username : String
  roll : Nat
  timestamp : Nat
  rollsUsed : Nat
deriving DecidableEq

/-- `RoundData` record; `endTime` and `cutoffRoll` are absent on a freshly
initialized round, hence `Option`. -/
structure RoundData where
  roundNumber : Nat
  startTime : Nat
  endTime : Option Nat
  participants : List String
  eliminated : List String
  cutoffRoll : Option Nat
deriving DecidableEq

/-- The slice of the key-value store owned by one tournament, as the engine
sees it: the config record (`tournament:<id>`, `none` when the record is
missing), the per-user roll hash (`tournament:rolls:<id>`, association list
in hash insertion order, matching `Object.values` enumeration order), and
the round records (`tournament:round:<id>:<n>`). -/
structure EngineState where
  config : Option TournamentConfig
  rolls : List (String × UserRoll)
  rounds : List (Nat × RoundData)
deriving DecidableEq

/-- Redis `HSET`: update the field in place if present (object key order is
preserved on update), append otherwise. -/
def hsetRoll (m : List (String × UserRoll)) (k : String) (v : UserRoll) :
    List (String × UserRoll) :=
  if m.any (fun p => p.1 = k) then
    m.map (fun p => if p.1 = k then (k, v) else p)
  else
    m ++ [(k, v)]

/-- Redis `HGET` on the roll hash. -/
def hgetRoll (m : List (String × UserRoll)) (k : String) : Option UserRoll :=
  (m.find? (fun p => p.1 = k)).map Prod.snd

/-- `SET` on a round key: update in place if present, append otherwise. -/
def setRound (m : List (Nat × RoundData)) (k : Nat) (v : RoundData) :
    List (Nat × RoundData) :=
  if m.any (fun p => p.1 = k) then
    m.map (fun p => if p.1 = k then (k, v) else p)
  else
    m ++ [(k, v)]

/-- `GET` on a round key. -/
def getRound (m : List (Nat × RoundData)) (k : Nat) : Option RoundData :=
  (m.find? (fun p => p.1 = k)).map Prod.snd

/-- Result record of `processUserRoll`:
`{ success: boolean; roll?: UserRoll; message: string }`. -/
structure RollResult where
  success : Bool
  roll : Option UserRoll
  message : String
deriving DecidableEq

/-- `processUserRoll(tournamentId, userId, username)` from
`src/unnamed/part_007`. The two effectful inputs of the original —
`Date.now()` and the random draw `Math.floor(Math.random() * maxRoll) + 1`
— are passed in as the parameters `now` and `rollValue`. Returns the
result record together with the engine state after the call (only the roll
hash can change). The original's guard `now > config.deadline` is
`config.deadline < now`, `existingRoll.rollsUsed >= config.rollLimit` is
`config.rollLimit ≤ existingRoll.rollsUsed`, and
`rollValue > existingRoll.roll` is `existingRoll.roll < rollValue`;
`!existingRoll` and the presence match are merged into one `match` on the
hash lookup, duplicating the save of a fresh `UserRoll` in the first-roll
branch exactly as the source's combined condition
`!existingRoll || rollValue > existingRoll.roll` does. -/
def processUserRoll (st : EngineState) (userId username : String)
    (now rollValue : Nat) : RollResult × EngineState :=
  match st.config with
  | none => (⟨false, none, "Tournament not found"⟩, st)
  | some config =>
    if config.status ≠ TournamentStatus.active then
      (⟨false, none, "Tournament is not active"⟩, st)
    else if config.deadline < now then
      (⟨false, none, "Tournament deadline has passed"⟩, st)
    else
      match hgetRoll st.rolls userId with
      | none =>
        let roll : UserRoll := ⟨userId, username, rollValue, now, 1⟩
        (⟨true, some roll,
          "Rolled " ++ toString rollValue ++ "! (1/" ++
            toString config.rollLimit ++ " rolls used)"⟩,
         { st with rolls := hsetRoll st.rolls userId roll })
      | some existingRoll =>
        if config.rollLimit ≤ existingRoll.rollsUsed then
          (⟨false, none,
            "You have used all " ++ toString config.rollLimit ++ " rolls"⟩, st)
        else
          let rollsUsed := existingRoll.rollsUsed + 1
          if existingRoll.roll < rollValue then
            let roll : UserRoll := ⟨userId, username, rollValue, now, rollsUsed⟩
            (⟨true, some roll,
              "Rolled " ++ toString rollValue ++ "! (" ++ toString rollsUsed ++
                "/" ++ toString config.rollLimit ++ " rolls used)"⟩,
             { st with rolls := hsetRoll st.rolls userId roll })
          else
            let updatedRoll : UserRoll := { existingRoll with rollsUsed := rollsUsed }
            (⟨true, some existingRoll,
              "Rolled " ++ toString rollValue ++ ", but your previous roll of " ++
                toString existingRoll.roll ++ " was better. (" ++
                toString rollsUsed ++ "/" ++ toString config.rollLimit ++
                " rolls used)"⟩,
             { st with rolls := hsetRoll st.rolls userId updatedRoll })

/-- A sequence of `processUserRoll` calls by one user: each list element is
the `(now, rollValue)` pair of one call. -/
def runRolls (st : EngineState) (userId username : String) :
    List (Nat × Nat) → EngineState
  | [] => st
  | (now, v) :: rest =>
    runRolls (processUserRoll st userId username now v).2 userId username rest

/-- `allRolls.sort((a, b) => b.roll - a.roll)`: stable sort, descending by
roll value. -/
def sortRollsDesc (l : List UserRoll) : List UserRoll :=
  l.insertionSort (fun a b => b.roll ≤ a.roll)

/-- Round `a / b` to the nearest integer, ties to even (`b > 0`): the IEEE
round-to-nearest-even rule applied to an exact rational. -/
def rndDiv (a b : Nat) : Nat :=
  let q := a / b
  let r := a % b
  if 2 * r < b then q
  else if b < 2 * r then q + 1
  else if q % 2 = 0 then q else q + 1

/-- Smallest `t` (up to `fuel`) with `b ≤ a * 2^t`. Used to find the
binade of `pct / 100`. -/
def upShift (a b : Nat) : Nat → Nat
  | 0 => 0
  | fuel + 1 => if b ≤ a then 0 else upShift (2 * a) b fuel + 1

/-- Fuelled base-2 logarithm: for `1 ≤ n < 2^fuel` this is the `e` with
`2^e ≤ n < 2^(e+1)`; the explicit fuel keeps concrete instances
kernel-evaluable. -/
def log2f : Nat → Nat → Nat
  | 0, _ => 0
  | fuel + 1, n => if 2 ≤ n then log2f fuel (n / 2) + 1 else 0

/-- `Math.floor(len * (pct / 100))` as IEEE binary64 arithmetic evaluates
it: `pct / 100` is rounded to the nearest double `r = m1 / 2^(t+52)`
(53-bit significand, ties to even), the product `len * r = P / 2^(t+52)`
is rounded to the nearest double `p = m2 * 2^sh / 2^(t+52)`, and the
result is `⌊p⌋`. Exact for `pct ≤ 100` and `len < 2^32` (a JS array
length), which covers every `endRound` call. This differs from the exact
`len * pct / 100` wherever the rounding of `pct / 100` pulls the product
just below an integer: e.g. `len = 100, pct = 29` evaluates
`⌊100 * 0.29⌋ = ⌊28.999999999999996⌋ = 28`, not `29`. (Checked bit-exact
against binary64 over `len ≤ 2000`, `pct ≤ 100` and large-`len` spot
values.) -/
def jsFloorPct (len pct : Nat) : Nat :=
  if pct = 0 then 0
  else
    let t := upShift pct 100 100
    let m1 := rndDiv (pct * 2 ^ (52 + t)) 100
    let P := len * m1
    let e2 := log2f 100 P
    let sh := e2 - 52
    let m2 := rndDiv P (2 ^ sh)
    m2 * 2 ^ sh / 2 ^ (52 + t)

/-- JavaScript `x || d` on an optionally-absent number: `undefined` and `0`
are falsy and give `d`. Used for `sortedRolls[i]?.roll || 0` and
`(...)?.startTime || Date.now()`. -/
def jsOrNat (a : Option Nat) (d : Nat) : Nat :=
  match a with
  | some v => if v = 0 then d else v
  | none => d

/-- Result record of `endRound`:
`{ success: boolean; message: string; eliminated?: string[] }`. -/
structure EndRoundResult where
  success : Bool
  message : String
  eliminated : Option (List String)
deriving DecidableEq

/-- `endRound(tournamentId, eliminationPercentage = 50)` from
`src/unnamed/part_007`. `Date.now()` is passed in as `now` (the original
calls it several times inside one invocation; those values are equal at
millisecond granularity for this synchronous computation and are modelled
by one parameter). `Math.floor(sortedRolls.length * (pct / 100))` is the
binary64 computation `jsFloorPct sortedRolls.length pct`.
`Math.max(0, n - eliminateCount - 1)` and
`sortedRolls.slice(n - eliminateCount)` are modelled with truncated `Nat`
subtraction and `List.drop`, which agree with the JS clamps whenever
`eliminateCount ≤ n`, i.e. whenever `pct ≤ 100` (the theorems below carry
that hypothesis; the only caller passes the default 50). -/
def endRound (st : EngineState) (pct now : Nat) : EndRoundResult × EngineState :=
  match st.config with
  | none => (⟨false, "Tournament not found", none⟩, st)
  | some config =>
    if config.status ≠ TournamentStatus.active then
      (⟨false, "Tournament is not active", none⟩, st)
    else
      let allRolls := st.rolls.map Prod.snd
      if allRolls.length = 0 then
        (⟨false, "No participants in this round", none⟩, st)
      else
        let sortedRolls := sortRollsDesc allRolls
        let eliminateCount := jsFloorPct sortedRolls.length pct
        let cutoffIndex := sortedRolls.length - eliminateCount - 1
        let cutoffRoll := jsOrNat ((sortedRolls.get? cutoffIndex).map UserRoll.roll) 0
        let eliminated :=
          (sortedRolls.drop (sortedRolls.length - eliminateCount)).map UserRoll.userId
        let startTime :=
          jsOrNat ((getRound st.rounds config.currentRound).map RoundData.startTime) now
        let roundData : RoundData :=
          ⟨config.currentRound, startTime, some now,
            sortedRolls.map UserRoll.userId, eliminated, some cutoffRoll⟩
        let rounds1 := setRound st.rounds config.currentRound roundData
        let remainingPlayers := sortedRolls.length - eliminateCount
        if remainingPlayers ≤ 1 then
          let config1 := { config with
            status := TournamentStatus.completed, updatedAt := now }
          (⟨true,
            "Tournament complete! Winner: " ++
              ((sortedRolls.head?).map UserRoll.username).getD "",
            some eliminated⟩,
           ⟨some config1, [], rounds1⟩)
        else
          let config1 := { config with
            currentRound := config.currentRound + 1, updatedAt := now }
          let nextRound : RoundData :=
            ⟨config1.currentRound, now, none,
              (sortedRolls.take remainingPlayers).map UserRoll.userId, [], none⟩
          let rounds2 := setRound rounds1 config1.currentRound nextRound
          (⟨true,
            "Round " ++ toString (config1.currentRound - 1) ++ " ended. " ++
              toString eliminateCount ++ " players eliminated. Starting round " ++
              toString config1.currentRound ++ "!",
            some eliminated⟩,
           ⟨some config1, [], rounds2⟩)

/-- `cancelTournament(tournamentId)` from `src/unnamed/part_007`. -/
def cancelTournament (st : EngineState) (now : Nat) : Bool × EngineState :=
  match st.config with
  | none => (false, st)
  | some config =>
    let config1 := { config with
      status := TournamentStatus.cancelled, updatedAt := now }
    (true, { st with config := some config1 })

/-! ## Tournament store (`src/src/features/tournament/storage.ts`)

Each operation gets the Redis client (`requireRedisClient`), builds a
namespaced key, runs the client command inside `try`, and either rethrows
the caught fault (save/delete operations) or converts it to a `null`/empty
result (get operations). To make the fault structure provable, operations
are modelled over an explicit `Client` value with a `down` flag: when
`down` is true, every issued command rejects with an infrastructure error
(connection failure). `JSON.parse` of a stored string either throws (the
string is not valid JSON — the `corrupt` blob) or yields the parsed value;
the TypeScript `as T` cast after it is unchecked, so a successfully parsed
blob is returned whatever record it actually serializes — the `Blob` type
keeps that distinction observable. -/

/-- `TournamentStats` record (payload only; `averageRoll` is a JS float of
the form `k / 100`, modelled as `ℚ`). -/
structure TournamentStats where
  totalParticipants : Nat
  activeParticipants : Nat
  eliminatedParticipants : Nat
  totalRolls : Nat
  averageRoll : ℚ
  highestRoll : UserRoll
  lowestRoll : UserRoll
deriving DecidableEq

/-- A value stored in Redis: the `JSON.stringify` image of one of the
domain records, or a string that is not valid JSON (`corrupt`). -/
inductive Blob
  | config (c : TournamentConfig)
  | roll (r : UserRoll)
  | round (rd : RoundData)
  | stats (s : TournamentStats)
  | corrupt
deriving DecidableEq

/-- The Redis keyspace relevant to the tournament store: string-typed keys
and hash-typed keys (a key is of one type at a time). List order is the
server's key scan order. -/
structure RedisState where
  strings : List (String × Blob)
  hashes : List (String × List (String × Blob))
deriving DecidableEq

/-- A connected Redis client. When `down` is true every command the client
issues fails with an infrastructure error. -/
structure Client where
  down : Bool
  st : RedisState
deriving DecidableEq

/-- Faults a tournament-store operation can reject with. -/
inductive StoreErr
  | unavailable
  | infra
  | wrongtype
  | parse
deriving DecidableEq

/-- Association-list lookup (leftmost binding wins, like a keyspace). -/
def lookupKV {α : Type} (m : List (String × α)) (k : String) : Option α :=
  (m.find? (fun p => p.1 = k)).map Prod.snd

/-- `client.get(key)`: value of a string key; `WRONGTYPE` when the key
holds a hash; `null` when absent. -/
def Client.get (cl : Client) (k : String) : Except StoreErr (Option Blob) :=
  if cl.down then .error .infra
  else
    match lookupKV cl.st.strings k with
    | some b => .ok (some b)
    | none =>
      if (lookupKV cl.st.hashes k).isSome then .error .wrongtype else .ok none

/-- `client.hget(key, field)`. -/
def Client.hget (cl : Client) (k field : String) : Except StoreErr (Option Blob) :=
  if cl.down then .error .infra
  else
    match lookupKV cl.st.hashes k with
    | some fields => .ok (lookupKV fields field)
    | none =>
      if (lookupKV cl.st.strings k).isSome then .error .wrongtype else .ok none

/-- `client.hgetall(key)`: the hash's fields in insertion order (an absent
key yields the empty hash). -/
def Client.hgetall (cl : Client) (k : String) :
    Except StoreErr (List (String × Blob)) :=
  if cl.down then .error .infra
  else
    match lookupKV cl.st.hashes k with
    | some fields => .ok fields
    | none =>
      if (lookupKV cl.st.strings k).isSome then .error .wrongtype else .ok []

/-- `key.startsWith(p)`, computed on the character lists so that concrete
instances evaluate. -/
def startsWithL (s p : String) : Bool := p.data.isPrefixOf s.data

/-- `client.keys(pattern)` for the prefix patterns `p*` the store uses:
every key (of either type) whose name starts with `p`, in scan order. -/
def Client.keysWith (cl : Client) (p : String) : Except StoreErr (List String) :=
  if cl.down then .error .infra
  else
    .ok ((cl.st.strings.map Prod.fst ++ cl.st.hashes.map Prod.fst).filter
      (fun k => startsWithL k p))

/-- `client.set(key, value)`; returns the updated keyspace. -/
def Client.setStr (cl : Client) (k : String) (v : Blob) :
    Except StoreErr RedisState :=
  if cl.down then .error .infra
  else
    .ok { cl.st with strings :=
      if cl.st.strings.any (fun p => p.1 = k) then
        cl.st.strings.map (fun p => if p.1 = k then (k, v) else p)
      else cl.st.strings ++ [(k, v)] }

/-- `client.hset(key, field, value)`; returns the updated keyspace. -/
def Client.hsetF (cl : Client) (k field : String) (v : Blob) :
    Except StoreErr RedisState :=
  if cl.down then .error .infra
  else
    let old := (lookupKV cl.st.hashes k).getD []
    let upd :=
      if old.any (fun p => p.1 = field) then
        old.map (fun p => if p.1 = field then (field, v) else p)
      else old ++ [(field, v)]
    .ok { cl.st with hashes :=
      if cl.st.hashes.any (fun p => p.1 = k) then
        cl.st.hashes.map (fun p => if p.1 = k then (k, upd) else p)
      else cl.st.hashes ++ [(k, upd)] }

/-- `client.del(key)`; returns the updated keyspace. -/
def Client.del (cl : Client) (k : String) : Except StoreErr RedisState :=
  if cl.down then .error .infra
  else
    .ok ⟨cl.st.strings.filter (fun p => ¬ p.1 = k),
         cl.st.hashes.filter (fun p => ¬ p.1 = k)⟩

/-- `JSON.parse` of a stored string: throws exactly on invalid JSON. -/
def jsonParse (b : Blob) : Except StoreErr Blob :=
  match b with
  | .corrupt => .error .parse
  | b => .ok b

/-- `saveTournamentConfig`: `client.set` under `tournament:<id>`; the catch
logs and rethrows. -/
def saveTournamentConfig (clOpt : Option Client) (config : TournamentConfig) :
    Except StoreErr RedisState :=
  match clOpt with
  | none => .error .unavailable
  | some cl => cl.setStr ("tournament:" ++ config.id) (Blob.config config)

/-- `getTournamentConfig`: `client.get` under `tournament:<id>`; the catch
logs and returns `null`, and a `JSON.parse` failure is caught the same
way. -/
def getTournamentConfig (clOpt : Option Client) (tournamentId : String) :
    Except StoreErr (Option Blob) :=
  match clOpt with
  | none => .error .unavailable
  | some cl =>
    match cl.get ("tournament:" ++ tournamentId) with
    | .error _ => .ok none
    | .ok none => .ok none
    | .ok (some data) =>
      match jsonParse data with
      | .error _ => .ok none
      | .ok b => .ok (some b)

/-- `deleteTournamentConfig`: `client.del`; the catch logs and rethrows. -/
def deleteTournamentConfig (clOpt : Option Client) (tournamentId : String) :
    Except StoreErr RedisState :=
  match clOpt with
  | none => .error .unavailable
  | some cl => cl.del ("tournament:" ++ tournamentId)

/-- `saveUserRoll`: `client.hset` on `tournament:rolls:<id>`; the catch
logs and rethrows. -/
def saveUserRoll (clOpt : Option Client) (tournamentId userId : String)
    (roll : UserRoll) : Except StoreErr RedisState :=
  match clOpt with
  | none => .error .unavailable
  | some cl => cl.hsetF ("tournament:rolls:" ++ tournamentId) userId (Blob.roll roll)

/-- `getUserRoll`: `client.hget`; the catch logs and returns `null`. -/
def getUserRoll (clOpt : Option Client) (tournamentId userId : String) :
    Except StoreErr (Option Blob) :=
  match clOpt with
  | none => .error .unavailable
  | some cl =>
    match cl.hget ("tournament:rolls:" ++ tournamentId) userId with
    | .error _ => .ok none
    | .ok none => .ok none
    | .ok (some data) =>
      match jsonParse data with
      | .error _ => .ok none
      | .ok b => .ok (some b)

/-- The body of the `for (const value of Object.values(data))` loop of
`getAllUserRolls`: parse each field value in order, pushing the results;
the first parse failure throws out of the whole loop. -/
def parseEntries : List (String × Blob) → Except StoreErr (List Blob)
  | [] => .ok []
  | p :: rest =>
    match jsonParse p.2 with
    | .error e => .error e
    | .ok b =>
      match parseEntries rest with
      | .error e => .error e
      | .ok bs => .ok (b :: bs)

/-- `getAllUserRolls`: `client.hgetall`, then `JSON.parse` of every field
value in one loop — the loop runs inside the same single `try`, so the
first command fault or parse failure abandons the whole read and the catch
returns the empty array. -/
def getAllUserRolls (clOpt : Option Client) (tournamentId : String) :
    Except StoreErr (List Blob) :=
  match clOpt with
  | none => .error .unavailable
  | some cl =>
    match cl.hgetall ("tournament:rolls:" ++ tournamentId) with
    | .error _ => .ok []
    | .ok fields =>
      match parseEntries fields with
      | .error _ => .ok []
      | .ok rolls => .ok rolls

/-- `deleteAllUserRolls`: `client.del`; the catch logs and rethrows. -/
def deleteAllUserRolls (clOpt : Option Client) (tournamentId : String) :
    Except StoreErr RedisState :=
  match clOpt with
  | none => .error .unavailable
  | some cl => cl.del ("tournament:rolls:" ++ tournamentId)

/-- `saveRoundData`: `client.set` under `tournament:round:<id>:<n>`; the
catch logs and rethrows. -/
def saveRoundData (clOpt : Option Client) (tournamentId : String)
    (roundNumber : Nat) (round : RoundData) : Except StoreErr RedisState :=
  match clOpt with
  | none => .error .unavailable
  | some cl =>
    cl.setStr ("tournament:round:" ++ tournamentId ++ ":" ++ toString roundNumber)
      (Blob.round round)

/-- `getRoundData`: `client.get`; the catch logs and returns `null`. -/
def getRoundData (clOpt : Option Client) (tournamentId : String)
    (roundNumber : Nat) : Except StoreErr (Option Blob) :=
  match clOpt with
  | none => .error .unavailable
  | some cl =>
    match cl.get ("tournament:round:" ++ tournamentId ++ ":" ++ toString roundNumber) with
    | .error _ => .ok none
    | .ok none => .ok none
    | .ok (some data) =>
      match jsonParse data with
      | .error _ => .ok none
      | .ok b => .ok (some b)

/-- The body of the `for (const key of keys)` loop shared by
`getAllRoundData` and `listActiveTournaments`: `get` each key in order,
skip absent values (`if (data)`), parse and push present ones; the first
command fault (including `WRONGTYPE` on a hash-typed key) or parse failure
throws out of the whole loop. -/
def readAll (cl : Client) : List String → Except StoreErr (List Blob)
  | [] => .ok []
  | k :: rest =>
    match cl.get k with
    | .error e => .error e
    | .ok none => readAll cl rest
    | .ok (some data) =>
      match jsonParse data with
      | .error e => .error e
      | .ok b =>
        match readAll cl rest with
        | .error e => .error e
        | .ok bs => .ok (b :: bs)

/-- `roundNumber` as read off a parsed blob by the `getAllRoundData`
comparator. On a blob that is not a round record the JS property access
yields `undefined` and the comparator computes `NaN`, which `sort` treats
as `0`; that degenerate case is modelled as key `0`. -/
def blobRoundNumber (b : Blob) : Nat :=
  match b with
  | .round rd => rd.roundNumber
  | _ => 0

/-- `getAllRoundData`: prefix scan of `tournament:round:<id>:`, `get` and
parse of each key inside one `try` (a fault or parse failure on any one
key abandons the whole read to the empty array), then sort ascending by
`roundNumber`. -/
def getAllRoundData (clOpt : Option Client) (tournamentId : String) :
    Except StoreErr (List Blob) :=
  match clOpt with
  | none => .error .unavailable
  | some cl =>
    match cl.keysWith ("tournament:round:" ++ tournamentId ++ ":") with
    | .error _ => .ok []
    | .ok keys =>
      match readAll cl keys with
      | .error _ => .ok []
      | .ok rounds =>
        .ok (rounds.insertionSort
          (fun a b => blobRoundNumber a ≤ blobRoundNumber b))

/-- `saveTournamentStats`: `client.set` under `tournament:stats:<id>`; the
catch logs and rethrows. -/
def saveTournamentStats (clOpt : Option Client) (tournamentId : String)
    (stats : TournamentStats) : Except StoreErr RedisState :=
  match clOpt with
  | none => .error .unavailable
  | some cl => cl.setStr ("tournament:stats:" ++ tournamentId) (Blob.stats stats)

/-- `getTournamentStats`: `client.get`; the catch logs and returns `null`. -/
def getTournamentStats (clOpt : Option Client) (tournamentId : String) :
    Except StoreErr (Option Blob) :=
  match clOpt with
  | none => .error .unavailable
  | some cl =>
    match cl.get ("tournament:stats:" ++ tournamentId) with
    | .error _ => .ok none
    | .ok none => .ok none
    | .ok (some data) =>
      match jsonParse data with
      | .error _ => .ok none
      | .ok b => .ok (some b)

/-- `listActiveTournaments`: `client.keys('tournament:*')` — which matches
every key of the tournament namespace, the rolls hashes and the round and
stats records included — then `get` and parse of each key inside one
`try`; absent values are skipped by `if (data)`, and any command fault
(including `WRONGTYPE` from `get` on a rolls hash key) or parse failure
abandons the whole listing to the empty array. -/
def listActiveTournaments (clOpt : Option Client) :
    Except StoreErr (List Blob) :=
  match clOpt with
  | none => .error .unavailable
  | some cl =>
    match cl.keysWith "tournament:" with
    | .error _ => .ok []
    | .ok keys =>
      match readAll cl keys with
      | .error _ => .ok []
      | .ok tournaments => .ok tournaments

/-! ## Storage facade (`src/src/services/storage.ts`) and game-state
manager (`src/src/services/gameStateManager.ts`)

The facade writes through `setRedis`/`writeDisk` (`core/redis.ts`,
`core/disk.ts`), both of which are total: they catch every fault and
return `false` instead of throwing, and `setRedis` also returns `false`
when the Redis client is absent. The two tiers are modelled as keyspaces
with availability flags: a write to an unavailable tier returns `false`
and leaves the tier unchanged; a write to an available tier succeeds.
Cache TTLs only govern later expiry and are irrelevant to the claims, so
the `ttl` argument is carried but does not alter the keyspace. -/

/-- Game status (`GameState.status` in `gameStateManager.ts`). -/
inductive GStatus
  | pending
  | active
  | completed
  | cancelled
deriving DecidableEq

/-- `GameState` record. The open `data` bag maps keys to opaque payload
values, modelled as strings. -/
structure GameState where
  gameId : String
  type : String
  status : GStatus
  players : List String
  startedAt : Option String
  endedAt : Option String
  data : List (String × String)
deriving DecidableEq

/-- A value held by a facade tier: a raw string, or the `JSON.stringify`
image of a `GameState` (the stringify of a well-formed record is injective,
modelled as a tagged injection). -/
inductive StoredVal
  | raw (s : String)
  | jsonGame (g : GameState)
deriving DecidableEq

/-- The two storage tiers with their availability, plus the append-only
event log (`logs/<logType>/<day>.log` lines, kept as one list; the
date-partitioned path layout does not affect any claim). -/
structure FacadeState where
  cacheUp : Bool
  diskUp : Bool
  cache : List (String × StoredVal)
  disk : List (String × StoredVal)
  logs : List (String × String)
deriving DecidableEq

/-- Insert-or-update on a tier keyspace. -/
def setKV (m : List (String × StoredVal)) (k : String) (v : StoredVal) :
    List (String × StoredVal) :=
  if m.any (fun p => p.1 = k) then
    m.map (fun p => if p.1 = k then (k, v) else p)
  else
    m ++ [(k, v)]

/-- `setRedis(key, value, ttl?)`: `false` without touching the tier when
the cache service is unavailable, `true` after writing otherwise. -/
def setRedis (st : FacadeState) (k : String) (v : StoredVal)
    (ttl : Option Nat) : Bool × FacadeState :=
  if st.cacheUp then (true, { st with cache := setKV st.cache k v })
  else (false, st)

/-- `writeDisk(relativePath, data)`: `false` without touching the tier on
failure, `true` after writing otherwise. -/
def writeDisk (st : FacadeState) (p : String) (v : StoredVal) :
    Bool × FacadeState :=
  if st.diskUp then (true, { st with disk := setKV st.disk p v })
  else (false, st)

/-- `appendDisk` as used by `logEvent`: appends one line, `false` on
failure. -/
def appendLog (st : FacadeState) (logType line : String) : Bool × FacadeState :=
  if st.diskUp then (true, { st with logs := st.logs ++ [(logType, line)] })
  else (false, st)

/-- `storeData(key, value, { ttl?, persistToDisk? })` from
`src/src/services/storage.ts`: cache write first; disk write under
`cache/<key>.txt` when `persistToDisk` is set or the cache write failed;
`true` when at least one write succeeded, `false` (logged, not thrown)
only when both failed. Total by construction — no branch raises. -/
def storeData (st : FacadeState) (key : String) (value : StoredVal)
    (ttl : Option Nat) (persistToDisk : Bool) : Bool × FacadeState :=
  let r1 := setRedis st key value ttl
  let redisSuccess := r1.1
  if persistToDisk || !redisSuccess then
    let r2 := writeDisk r1.2 ("cache/" ++ key ++ ".txt") value
    let diskSuccess := r2.1
    if !redisSuccess && !diskSuccess then (false, r2.2)
    else (true, r2.2)
  else (redisSuccess, r1.2)

/-- `storeJSON(key, data, options)`: stringify, then `storeData`. The
`try` around `JSON.stringify` only fires on unserializable input; a
`GameState` record always serializes, so the catch is unreachable here. -/
def storeJSON (st : FacadeState) (key : String) (g : GameState)
    (ttl : Option Nat) (persistToDisk : Bool) : Bool × FacadeState :=
  storeData st key (StoredVal.jsonGame g) ttl persistToDisk

/-- `storeGameState(gameId, state)`: `game:<id>:state`, 24h TTL, forced
disk persistence. -/
def storeGameState (st : FacadeState) (gameId : String) (g : GameState) :
    Bool × FacadeState :=
  storeJSON st ("game:" ++ gameId ++ ":state") g (some 86400) true

/-- `logEvent(logType, event)` as invoked by the game-state manager: one
JSON line appended to the day's log file for `logType`; the line's payload
is summarized by its `action`/`gameId` fields. -/
def logEvent (st : FacadeState) (logType action gameId : String) :
    Bool × FacadeState :=
  appendLog st logType (action ++ ":" ++ gameId)

/-- `createGame(gameId, type, initialData = {})` from
`src/src/services/gameStateManager.ts`: builds a fresh pending `GameState`
with an empty player list and `data = initialData` — without reading any
existing state for that `gameId` — stores it, logs a `create` event when
the store succeeded, and returns the store's success. -/
def createGame (st : FacadeState) (gameId ty : String)
    (initialData : List (String × String)) : Bool × FacadeState :=
  let state : GameState := ⟨gameId, ty, GStatus.pending, [], none, none, initialData⟩
  let r := storeGameState st gameId state
  if r.1 then (r.1, (logEvent r.2 "game" "create" gameId).2)
  else (r.1, r.2)

/-! ### Helper lemmas about the insert-or-update pattern shared by the
hash/keyspace writes -/

theorem find?_map_update {κ ν : Type} [DecidableEq κ] (k : κ) (v : ν) :
    ∀ m : List (κ × ν),
      (m.map (fun p => if p.1 = k then (k, v) else p)).find? (fun p => p.1 = k) =
        if m.any (fun p => p.1 = k) then some (k, v) else none
  | [] => by simp
  | p :: rest => by
    by_cases h : p.1 = k
    · simp [h]
    · rw [List.map_cons, if_neg h, List.find?_cons_of_neg _ (by simpa using h),
        find?_map_update k v rest]
      have hd : (decide (p.1 = k)) = false := by simpa using h
      rw [List.any_cons, hd, Bool.false_or]

theorem find?_append_new {κ ν : Type} [DecidableEq κ] (k : κ) (v : ν)
    (m : List (κ × ν)) (h : m.any (fun p => p.1 = k) = false) :
    (m ++ [(k, v)]).find? (fun p => p.1 = k) = some (k, v) := by
  rw [List.find?_append]
  have h0 : m.find? (fun p => (p.1 = k : Bool)) = none := by
    rw [List.find?_eq_none]
    intro x hx
    have := List.any_eq_false.mp h x hx
    simpa using this
  rw [h0]
  simp

theorem find?_upsert_self {κ ν : Type} [DecidableEq κ]
    (m : List (κ × ν)) (k : κ) (v : ν) :
    ((if m.any (fun p => p.1 = k) then
        m.map (fun p => if p.1 = k then (k, v) else p)
      else m ++ [(k, v)]).find? (fun p => p.1 = k)) = some (k, v) := by
  by_cases h : m.any (fun p => p.1 = k)
  · rw [if_pos h, find?_map_update, if_pos h]
  · rw [if_neg h, find?_append_new k v m (by revert h; cases m.any fun p => p.1 = k <;> simp)]

theorem find?_upsert_ne {κ ν : Type} [DecidableEq κ]
    (m : List (κ × ν)) (k k' : κ) (v : ν) (hne : k' ≠ k) :
    ((if m.any (fun p => p.1 = k) then
        m.map (fun p => if p.1 = k then (k, v) else p)
      else m ++ [(k, v)]).find? (fun p => p.1 = k')) =
      m.find? (fun p => p.1 = k') := by
  by_cases h : m.any (fun p => p.1 = k)
  · rw [if_pos h]
    clear h
    induction m with
    | nil => simp
    | cons p rest ih =>
      by_cases hp : p.1 = k
      · have hp' : ¬ (p.1 = k') := by
          intro hh
          exact hne (by rw [← hh, hp])
        rw [List.map_cons, if_pos hp,
          List.find?_cons_of_neg _ (by simpa using fun hh => hne hh.symm),
          List.find?_cons_of_neg _ (by simpa using hp')]
        exact ih
      · rw [List.map_cons, if_neg hp]
        by_cases hq : p.1 = k'
        · rw [List.find?_cons_of_pos _ (by simpa using hq),
            List.find?_cons_of_pos _ (by simpa using hq)]
        · rw [List.find?_cons_of_neg _ (by simpa using hq),
            List.find?_cons_of_neg _ (by simpa using hq)]
          exact ih
  · rw [if_neg h, List.find?_append]
    have h1 : ([((k : κ), v)].find? (fun p => (p.1 = k' : Bool))) = none := by
      rw [List.find?_eq_none]
      intro x hx
      simp only [List.mem_singleton] at hx
      subst hx
      simpa using fun hh => hne hh.symm
    rw [h1]
    cases m.find? (fun p => (p.1 = k' : Bool)) <;> simp

theorem hgetRoll_hsetRoll_self (m : List (String × UserRoll)) (k : String) (v : UserRoll) :
    hgetRoll (hsetRoll m k v) k = some v := by
  unfold hgetRoll hsetRoll
  rw [find?_upsert_self]
  rfl

theorem hgetRoll_hsetRoll_ne (m : List (String × UserRoll)) (k k' : String)
    (v : UserRoll) (hne : k' ≠ k) :
    hgetRoll (hsetRoll m k v) k' = hgetRoll m k' := by
  unfold hgetRoll hsetRoll
  rw [find?_upsert_ne _ _ _ _ hne]

theorem getRound_setRound_self (m : List (Nat × RoundData)) (k : Nat) (v : RoundData) :
    getRound (setRound m k v) k = some v := by
  unfold getRound setRound
  rw [find?_upsert_self]
  rfl

theorem getRound_setRound_ne (m : List (Nat × RoundData)) (k k' : Nat) (v : RoundData)
    (hne : k' ≠ k) : getRound (setRound m k v) k' = getRound m k' := by
  unfold getRound setRound
  rw [find?_upsert_ne _ _ _ _ hne]


/-! ## Claim theorems: tournament engine -/

/-! ### The binary64 evaluation of the elimination count -/

theorem rndDiv_le (a b c : Nat) (hb : 0 < b) (h : a ≤ b * c) : rndDiv a b ≤ c := by
  have hq : a / b ≤ c := by
    have h2 := Nat.div_le_div_right (c := b) h
    rwa [Nat.mul_div_cancel_left c hb] at h2
  have hdm := Nat.div_add_mod a b
  unfold rndDiv
  by_cases h1 : 2 * (a % b) < b
  · simpa [h1] using hq
  · rcases Nat.lt_or_ge (a / b) c with hlt | hge
    · simp only [if_neg h1]
      split
      · omega
      · split <;> omega
    · exfalso
      have hqc : a / b = c := Nat.le_antisymm hq hge
      rw [hqc] at hdm
      omega

theorem rndDiv_zero (b : Nat) : rndDiv 0 b = 0 := by
  unfold rndDiv
  rcases b with _ | b <;> simp

theorem upShift_le (b : Nat) :
    ∀ (fuel a : Nat), 1 ≤ a → b ≤ a * 2 ^ fuel →
      b ≤ a * 2 ^ (upShift a b fuel)
  | 0, a, _, h => by
    unfold upShift
    simpa using h
  | fuel + 1, a, ha, h => by
    unfold upShift
    by_cases hba : b ≤ a
    · simp [hba]
    · rw [if_neg hba]
      have h2 : b ≤ 2 * a * 2 ^ fuel := by
        calc b ≤ a * 2 ^ (fuel + 1) := h
          _ = 2 * a * 2 ^ fuel := by ring
      calc b ≤ 2 * a * 2 ^ (upShift (2 * a) b fuel) :=
            upShift_le b fuel (2 * a) (by omega) h2
        _ = a * 2 ^ (upShift (2 * a) b fuel + 1) := by ring

theorem upShift_min (b : Nat) :
    ∀ (fuel a k : Nat), 1 ≤ a → b ≤ a * 2 ^ k → upShift a b fuel ≤ k
  | 0, a, k, _, _ => Nat.zero_le k
  | fuel + 1, a, k, ha, h => by
    unfold upShift
    by_cases hba : b ≤ a
    · simp [hba]
    · rw [if_neg hba]
      rcases k with _ | k
      · simp at h
        omega
      · have h2 : b ≤ 2 * a * 2 ^ k := by
          calc b ≤ a * 2 ^ (k + 1) := h
            _ = 2 * a * 2 ^ k := by ring
        have := upShift_min b fuel (2 * a) k (by omega) h2
        omega

theorem log2f_spec :
    ∀ (fuel n : Nat), 1 ≤ n → n < 2 ^ fuel →
      2 ^ (log2f fuel n) ≤ n ∧ n < 2 ^ (log2f fuel n + 1)
  | 0, n, h1, h2 => by
    simp at h2
    omega
  | fuel + 1, n, h1, h2 => by
    unfold log2f
    by_cases hn : 2 ≤ n
    · rw [if_pos hn]
      have hh : 1 ≤ n / 2 := by omega
      have hh2 : n / 2 < 2 ^ fuel := by
        rw [pow_succ] at h2
        omega
      obtain ⟨l1, l2⟩ := log2f_spec fuel (n / 2) hh hh2
      rw [pow_succ] at l2
      constructor
      · rw [pow_succ]
        omega
      · rw [pow_succ, pow_succ]
        omega
    · rw [if_neg hn]
      constructor
      · simpa using h1
      · simpa using by omega

theorem jsFloorPct_le (len pct : Nat) (hpct : pct ≤ 100) (hlen : len < 2 ^ 32) :
    jsFloorPct len pct ≤ len := by
  unfold jsFloorPct
  by_cases hp0 : pct = 0
  · simp [hp0]
  · rw [if_neg hp0]
    simp only []
    set t := upShift pct 100 100 with ht
    set m1 := rndDiv (pct * 2 ^ (52 + t)) 100 with hm1
    have hm1le : m1 ≤ 2 ^ (52 + t) := by
      apply rndDiv_le _ _ _ (by norm_num)
      calc pct * 2 ^ (52 + t) ≤ 100 * 2 ^ (52 + t) :=
            Nat.mul_le_mul_right _ hpct
        _ = 100 * 2 ^ (52 + t) := rfl
    set P := len * m1 with hP
    have hPle : P ≤ len * 2 ^ (52 + t) := Nat.mul_le_mul_left _ hm1le
    by_cases hP0 : P = 0
    · rw [hP0, rndDiv_zero]
      simp
    · have hP1 : 1 ≤ P := Nat.pos_of_ne_zero hP0
      have htle : t ≤ 7 := by
        apply upShift_min 100 100 pct 7 (by omega)
        have : (100 : Nat) ≤ 128 := by norm_num
        calc (100 : Nat) ≤ 128 := this
          _ = 1 * 2 ^ 7 := by norm_num
          _ ≤ pct * 2 ^ 7 := Nat.mul_le_mul_right _ (by omega)
      have hfuel : P < 2 ^ 100 := by
        have h1 : P < 2 ^ 32 * 2 ^ (52 + t) :=
          lt_of_le_of_lt hPle (Nat.mul_lt_mul_of_lt_of_le hlen (le_refl _) (pow_pos (by norm_num) _))
        have h2 : (2:Nat) ^ 32 * 2 ^ (52 + t) = 2 ^ (84 + t) := by
          rw [← pow_add]
          congr 1
          omega
        have h3 : (2:Nat) ^ (84 + t) ≤ 2 ^ 100 :=
          Nat.pow_le_pow_right (by norm_num) (by omega)
        omega
      obtain ⟨hl1, hl2⟩ := log2f_spec 100 P hP1 hfuel
      set e2 := log2f 100 P with he2
      set sh := e2 - 52 with hsh
      have hsh52 : sh ≤ 52 + t := by
        have he2lt : e2 < 84 + t := by
          by_contra hcon
          push_neg at hcon
          have : (2:Nat) ^ (84 + t) ≤ 2 ^ e2 :=
            Nat.pow_le_pow_right (by norm_num) hcon
          have h2 : (2:Nat) ^ 32 * 2 ^ (52 + t) = 2 ^ (84 + t) := by
            rw [← pow_add]
            congr 1
            omega
          have h1 : P < 2 ^ 32 * 2 ^ (52 + t) :=
            lt_of_le_of_lt hPle (Nat.mul_lt_mul_of_lt_of_le hlen (le_refl _) (pow_pos (by norm_num) _))
          omega
        omega
      set m2 := rndDiv P (2 ^ sh) with hm2
      have hm2le : m2 ≤ len * 2 ^ (52 + t - sh) := by
        apply rndDiv_le _ _ _ (pow_pos (by norm_num) _)
        have hpow : (2:Nat) ^ sh * (len * 2 ^ (52 + t - sh)) = len * 2 ^ (52 + t) := by
          rw [Nat.mul_comm ((2:Nat) ^ sh) _, Nat.mul_assoc, ← pow_add]
          congr 2
          omega
        rw [hpow]
        exact hPle
      calc m2 * 2 ^ sh / 2 ^ (52 + t)
          ≤ (len * 2 ^ (52 + t - sh)) * 2 ^ sh / 2 ^ (52 + t) :=
            Nat.div_le_div_right (Nat.mul_le_mul_right _ hm2le)
        _ = len * 2 ^ (52 + t) / 2 ^ (52 + t) := by
            rw [Nat.mul_assoc, ← pow_add]
            congr 3
            omega
        _ = len := Nat.mul_div_cancel _ (pow_pos (by norm_num) _)

/-! ### Sortedness facts for the descending roll sort -/

instance : IsTotal UserRoll (fun a b => b.roll ≤ a.roll) :=
  ⟨fun a b => Nat.le_total b.roll a.roll⟩

instance : IsTrans UserRoll (fun a b => b.roll ≤ a.roll) :=
  ⟨fun _ _ _ hab hbc => Nat.le_trans hbc hab⟩

theorem sortRollsDesc_perm (l : List UserRoll) : (sortRollsDesc l).Perm l :=
  List.perm_insertionSort _ l

theorem sortRollsDesc_length (l : List UserRoll) :
    (sortRollsDesc l).length = l.length :=
  List.length_insertionSort _ l

theorem sortRollsDesc_sorted (l : List UserRoll) :
    (sortRollsDesc l).Pairwise (fun a b => b.roll ≤ a.roll) :=
  List.sorted_insertionSort _ l

/-- In a descending-sorted list, every element of the dropped tail is ≤
every element of the kept head segment. -/
theorem drop_le_take_of_sorted (l : List UserRoll) (k : Nat)
    (hs : l.Pairwise (fun a b => b.roll ≤ a.roll)) :
    ∀ e ∈ l.drop k, ∀ s ∈ l.take k, e.roll ≤ s.roll := by
  have hsplit : l.take k ++ l.drop k = l := List.take_append_drop k l
  rw [← hsplit] at hs
  have := (List.pairwise_append).mp hs
  intro e he s hsm
  exact this.2.2 s hsm e he

/-- 100 recorded rolls, values 100 down to 1 (descending, so the stable
sort is the identity). -/
def rolls100 : List (String × UserRoll) :=
  (List.range 100).map (fun i =>
    ("u" ++ toString i, ⟨"u" ++ toString i, "p" ++ toString i, 100 - i, 1000, 1⟩))

def cfg100 : TournamentConfig :=
  ⟨"T100", "Cup", 100, 3, 10000, 1, TournamentStatus.active, "ch", 1, 1⟩

def st100 : EngineState :=
  ⟨some cfg100, rolls100, [(1, ⟨1, 500, none, [], [], none⟩)]⟩

/-- C1 counterexample: with 100 recorded rolls and eliminationPercentage
29, `endRound` eliminates 28 players — `Math.floor(100 * (29 / 100))` in
binary64 is `⌊28.999999999999996⌋ = 28` — not the `⌊100·29/100⌋ = 29` the
claim's exact-arithmetic count demands. -/
theorem endRound_float_floor_counterexample :
    st100.rolls.length = 100 ∧
    ((endRound st100 29 2000).1.eliminated.getD []).length = 28 ∧
    100 * 29 / 100 = 29 :=
  ⟨rfl, rfl, by decide⟩

/-- C1 amended: on an active tournament with n ≥ 1 recorded rolls (n a JS
array length, so n < 2^32) and elimination percentage pct ≤ 100,
`endRound` succeeds and eliminates exactly
`eliminateCount = jsFloorPct n pct` entries — `Math.floor(n * (pct/100))`
as binary64 arithmetic computes it, which can fall one below the exact
`⌊n·pct/100⌋` (e.g. 28, not 29, at n = 100, pct = 29) — namely the bottom
`eliminateCount` of the descending sort, indices `n - eliminateCount`
through `n - 1`; it sets the saved round's `cutoffRoll` to the roll at
index `max(0, n - eliminateCount - 1)` of that sort, and every eliminated
roll value is ≤ every surviving roll value. -/
theorem endRound_elimination (st : EngineState) (config : TournamentConfig)
    (pct now n ec : Nat) (sorted : List UserRoll)
    (hc : st.config = some config)
    (hact : config.status = TournamentStatus.active)
    (hsorted : sorted = sortRollsDesc (st.rolls.map Prod.snd))
    (hn : n = st.rolls.length)
    (hne : 1 ≤ n)
    (hn32 : n < 2 ^ 32)
    (hec : ec = jsFloorPct n pct)
    (hpct : pct ≤ 100)
    (hpos : ∀ p ∈ st.rolls, 1 ≤ p.2.roll) :
    (endRound st pct now).1.success = true ∧
    (endRound st pct now).1.eliminated =
      some ((sorted.drop (n - ec)).map UserRoll.userId) ∧
    ((sorted.drop (n - ec)).map UserRoll.userId).length = ec ∧
    (∃ rd, getRound (endRound st pct now).2.rounds config.currentRound = some rd ∧
       rd.cutoffRoll = (sorted.get? (n - ec - 1)).map UserRoll.roll) ∧
    (∀ e ∈ sorted.drop (n - ec), ∀ s ∈ sorted.take (n - ec), e.roll ≤ s.roll) := by
  have hlen : (st.rolls.map Prod.snd).length = n := by rw [List.length_map, hn]
  have hslen : sorted.length = n := by rw [hsorted, sortRollsDesc_length, hlen]
  have hecn : ec ≤ n := by
    rw [hec]
    exact jsFloorPct_le n pct hpct hn32
  have hposs : ∀ r ∈ sorted, 1 ≤ r.roll := by
    intro r hr
    have hr' : r ∈ st.rolls.map Prod.snd := (sortRollsDesc_perm _).mem_iff.mp (hsorted ▸ hr)
    obtain ⟨p, hp, rfl⟩ := List.mem_map.mp hr'
    exact hpos p hp
  -- index validity for the cutoff
  have hidx : n - ec - 1 < n := by omega
  have hget : ∃ r, sorted.get? (n - ec - 1) = some r := by
    rw [List.get?_eq_get (by rw [hslen]; exact hidx)]
    exact ⟨_, rfl⟩
  obtain ⟨cr, hcr⟩ := hget
  have hcrpos : 1 ≤ cr.roll := hposs cr (List.get?_mem hcr)
  -- evaluate endRound
  obtain ⟨cfgF, rollsF, roundsF⟩ := st
  simp only at hc hn hpos hsorted hlen
  subst hc
  have h0 : ¬ ((rollsF.map Prod.snd).length = 0) := by
    rw [hlen]; omega
  unfold endRound
  simp only [if_neg (show ¬ (config.status ≠ TournamentStatus.active) by simp [hact]),
    if_neg h0]
  rw [← hsorted]
  simp only [hslen, ← hec]
  by_cases hrem : n - ec ≤ 1
  · rw [if_pos hrem]
    refine ⟨rfl, rfl, ?_, ?_, ?_⟩
    · rw [List.length_map, List.length_drop, hslen]
      omega
    · refine ⟨_, getRound_setRound_self _ _ _, ?_⟩
      show some (jsOrNat (Option.map UserRoll.roll (sorted.get? (n - ec - 1))) 0) =
        Option.map UserRoll.roll (sorted.get? (n - ec - 1))
      rw [hcr, show Option.map UserRoll.roll (some cr) = some cr.roll from rfl]
      have hnz : ¬ cr.roll = 0 := by omega
      simp [jsOrNat, hnz]
    · exact drop_le_take_of_sorted sorted (n - ec)
        (hsorted ▸ sortRollsDesc_sorted (rollsF.map Prod.snd))
  · rw [if_neg hrem]
    refine ⟨rfl, rfl, ?_, ?_, ?_⟩
    · rw [List.length_map, List.length_drop, hslen]
      omega
    · rw [getRound_setRound_ne _ _ _ _ (by omega)]
      refine ⟨_, getRound_setRound_self _ _ _, ?_⟩
      show some (jsOrNat (Option.map UserRoll.roll (sorted.get? (n - ec - 1))) 0) =
        Option.map UserRoll.roll (sorted.get? (n - ec - 1))
      rw [hcr, show Option.map UserRoll.roll (some cr) = some cr.roll from rfl]
      have hnz : ¬ cr.roll = 0 := by omega
      simp [jsOrNat, hnz]
    · exact drop_le_take_of_sorted sorted (n - ec)
        (hsorted ▸ sortRollsDesc_sorted (rollsF.map Prod.snd))
/-! ### Step lemmas for `processUserRoll` -/

theorem processUserRoll_config_eq (st : EngineState) (u un : String) (now v : Nat) :
    (processUserRoll st u un now v).2.config = st.config := by
  unfold processUserRoll
  split
  · rfl
  · split
    · rfl
    · split
      · rfl
      · split
        · rfl
        · split
          · rfl
          · split <;> rfl

theorem processUserRoll_rounds_eq (st : EngineState) (u un : String) (now v : Nat) :
    (processUserRoll st u un now v).2.rounds = st.rounds := by
  unfold processUserRoll
  split
  · rfl
  · split
    · rfl
    · split
      · rfl
      · split
        · rfl
        · split
          · rfl
          · split <;> rfl

/-- Exhaustive description of what one `processUserRoll` call does to the
roll hash. -/
theorem processUserRoll_rolls_cases (st : EngineState) (u un : String) (now v : Nat) :
    (processUserRoll st u un now v).2 = st ∨
    (hgetRoll st.rolls u = none ∧
      (processUserRoll st u un now v).2.rolls = hsetRoll st.rolls u ⟨u, un, v, now, 1⟩) ∨
    (∃ config e, st.config = some config ∧ hgetRoll st.rolls u = some e ∧
      e.rollsUsed < config.rollLimit ∧
      ((e.roll < v ∧ (processUserRoll st u un now v).2.rolls =
          hsetRoll st.rolls u ⟨u, un, v, now, e.rollsUsed + 1⟩) ∨
       (v ≤ e.roll ∧ (processUserRoll st u un now v).2.rolls =
          hsetRoll st.rolls u { e with rollsUsed := e.rollsUsed + 1 }))) := by
  unfold processUserRoll
  split
  · exact Or.inl rfl
  · rename_i config hc
    split
    · exact Or.inl rfl
    · split
      · exact Or.inl rfl
      · split
        · rename_i hnone
          exact Or.inr (Or.inl ⟨hnone, rfl⟩)
        · rename_i e he
          split
          · exact Or.inl rfl
          · rename_i hlt
            split
            · rename_i himp
              exact Or.inr (Or.inr ⟨config, e, hc, he, by omega,
                Or.inl ⟨himp, rfl⟩⟩)
            · rename_i himp
              exact Or.inr (Or.inr ⟨config, e, hc, he, by omega,
                Or.inr ⟨by omega, rfl⟩⟩)

/-- One step preserves the roll-limit bound on the stored entry. -/
theorem processUserRoll_bound_step (st : EngineState) (config : TournamentConfig)
    (u un : String) (now v : Nat)
    (hc : st.config = some config) (hL : 1 ≤ config.rollLimit)
    (hP : ∀ e, hgetRoll st.rolls u = some e → e.rollsUsed ≤ config.rollLimit) :
    ∀ e', hgetRoll (processUserRoll st u un now v).2.rolls u = some e' →
      e'.rollsUsed ≤ config.rollLimit := by
  intro e' he'
  rcases processUserRoll_rolls_cases st u un now v with h | ⟨_, h⟩ | ⟨c2, e, hc2, _, hlt, hbr⟩
  · rw [h] at he'
    exact hP e' he'
  · rw [h, hgetRoll_hsetRoll_self] at he'
    cases he'
    exact hL
  · have hcc : c2 = config := by
      rw [hc] at hc2
      injection hc2 with hh
      exact hh.symm
    rw [hcc] at hlt
    rcases hbr with ⟨_, h⟩ | ⟨_, h⟩ <;>
    · rw [h, hgetRoll_hsetRoll_self] at he'
      cases he'
      show e.rollsUsed + 1 ≤ config.rollLimit
      omega

/-- One step never decreases the stored roll, and never deletes it. -/
theorem processUserRoll_mono_step (st : EngineState) (u un : String) (now v : Nat) :
    ∀ e, hgetRoll st.rolls u = some e →
      ∃ e', hgetRoll (processUserRoll st u un now v).2.rolls u = some e' ∧
        e.roll ≤ e'.roll := by
  intro e he
  rcases processUserRoll_rolls_cases st u un now v with h | ⟨hn, _⟩ | ⟨c2, e2, _, he2, _, hbr⟩
  · exact ⟨e, by rw [h]; exact he, Nat.le_refl _⟩
  · rw [he] at hn
    cases hn
  · rw [he] at he2
    injection he2 with hh
    subst hh
    rcases hbr with ⟨hlt, h⟩ | ⟨_, h⟩
    · refine ⟨⟨u, un, v, now, e.rollsUsed + 1⟩,
        by rw [h]; exact hgetRoll_hsetRoll_self _ _ _, ?_⟩
      exact Nat.le_of_lt hlt
    · refine ⟨{ e with rollsUsed := e.rollsUsed + 1 },
        by rw [h]; exact hgetRoll_hsetRoll_self _ _ _, ?_⟩
      exact Nat.le_refl _

/-- The bound invariant holds after any sequence of calls. -/
theorem runRolls_bound (u un : String) (config : TournamentConfig)
    (hL : 1 ≤ config.rollLimit) :
    ∀ (draws : List (Nat × Nat)) (st : EngineState),
      st.config = some config →
      (∀ e, hgetRoll st.rolls u = some e → e.rollsUsed ≤ config.rollLimit) →
      ∀ e', hgetRoll (runRolls st u un draws).rolls u = some e' →
        e'.rollsUsed ≤ config.rollLimit
  | [], _, _, hP, e', h => hP e' h
  | (now, v) :: rest, st, hc, hP, e', h =>
    runRolls_bound u un config hL rest (processUserRoll st u un now v).2
      (by rw [processUserRoll_config_eq]; exact hc)
      (processUserRoll_bound_step st config u un now v hc hL hP) e'
      (by simpa [runRolls] using h)

/-- The stored roll is non-decreasing across any sequence of calls. -/
theorem runRolls_mono (u un : String) :
    ∀ (draws : List (Nat × Nat)) (st : EngineState) (e : UserRoll),
      hgetRoll st.rolls u = some e →
      ∀ e', hgetRoll (runRolls st u un draws).rolls u = some e' →
        e.roll ≤ e'.roll
  | [], st, e, he, e', h => by
    rw [show runRolls st u un [] = st from rfl] at h
    rw [he] at h
    cases h
    exact Nat.le_refl _
  | (now, v) :: rest, st, e, he, e', h => by
    obtain ⟨e1, he1, hle⟩ := processUserRoll_mono_step st u un now v e he
    exact Nat.le_trans hle
      (runRolls_mono u un rest (processUserRoll st u un now v).2 e1 he1 e'
        (by simpa [runRolls] using h))
/-- C2: within a round, `rollsUsed` never exceeds `rollLimit` (a call
made at the limit fails with the roll-limit message and changes nothing),
the stored roll is monotonically non-decreasing across any sequence of
`processUserRoll` calls, and a draw that does not beat the stored best
keeps the stored roll, still increments `rollsUsed`, and reports the
losing draw in the returned message. -/
theorem processUserRoll_roll_limit_and_best_of
    (st : EngineState) (config : TournamentConfig) (u un : String)
    (hc : st.config = some config)
    (hL : 1 ≤ config.rollLimit)
    (hP : ∀ e, hgetRoll st.rolls u = some e → e.rollsUsed ≤ config.rollLimit) :
    (∀ draws e', hgetRoll (runRolls st u un draws).rolls u = some e' →
        e'.rollsUsed ≤ config.rollLimit) ∧
    (∀ now v e, hgetRoll st.rolls u = some e →
        config.status = TournamentStatus.active →
        now ≤ config.deadline →
        config.rollLimit ≤ e.rollsUsed →
        processUserRoll st u un now v =
          (⟨false, none,
            "You have used all " ++ toString config.rollLimit ++ " rolls"⟩, st)) ∧
    (∀ draws e e', hgetRoll st.rolls u = some e →
        hgetRoll (runRolls st u un draws).rolls u = some e' →
        e.roll ≤ e'.roll) ∧
    (∀ now v e, hgetRoll st.rolls u = some e →
        config.status = TournamentStatus.active →
        now ≤ config.deadline →
        e.rollsUsed < config.rollLimit →
        v ≤ e.roll →
        (processUserRoll st u un now v).2.rolls =
          hsetRoll st.rolls u { e with rollsUsed := e.rollsUsed + 1 } ∧
        (processUserRoll st u un now v).1.success = true ∧
        (processUserRoll st u un now v).1.message =
          "Rolled " ++ toString v ++ ", but your previous roll of " ++
            toString e.roll ++ " was better. (" ++ toString (e.rollsUsed + 1) ++
            "/" ++ toString config.rollLimit ++ " rolls used)") := by
  refine ⟨?_, ?_, ?_, ?_⟩
  · intro draws e' h
    exact runRolls_bound u un config hL draws st hc hP e' h
  · intro now v e he hact hdl hlim
    obtain ⟨cfgF, rollsF, roundsF⟩ := st
    simp only at hc he ⊢
    subst hc
    unfold processUserRoll
    simp only [he]
    rw [if_neg (by simp [hact]), if_neg (by omega), if_pos hlim]
  · intro draws e e' he h
    exact runRolls_mono u un draws st e he e' h
  · intro now v e he hact hdl hlt hv
    obtain ⟨cfgF, rollsF, roundsF⟩ := st
    simp only at hc he ⊢
    subst hc
    unfold processUserRoll
    simp only [he]
    rw [if_neg (by simp [hact]), if_neg (by omega), if_neg (by omega),
      if_neg (by omega)]
    exact ⟨rfl, rfl, rfl⟩
/-- C3: when `remainingPlayers = n - eliminateCount ≤ 1`, `endRound`
transitions the tournament to `completed`, reports the top-ranked
participant of the pre-elimination descending sort as winner, and creates
no round record for a next round (only the current round's record is
written). -/
theorem endRound_completes_when_at_most_one_remains
    (st : EngineState) (config : TournamentConfig)
    (pct now n ec : Nat) (sorted : List UserRoll)
    (hc : st.config = some config)
    (hact : config.status = TournamentStatus.active)
    (hsorted : sorted = sortRollsDesc (st.rolls.map Prod.snd))
    (hn : n = st.rolls.length)
    (hne : 1 ≤ n)
    (hec : ec = jsFloorPct n pct)
    (hpct : pct ≤ 100)
    (hrem : n - ec ≤ 1) :
    (endRound st pct now).1.success = true ∧
    (endRound st pct now).2.config =
      some { config with status := TournamentStatus.completed, updatedAt := now } ∧
    (∃ w, sorted.head? = some w ∧
      (endRound st pct now).1.message = "Tournament complete! Winner: " ++ w.username) ∧
    (∀ k, k ≠ config.currentRound →
      getRound (endRound st pct now).2.rounds k = getRound st.rounds k) := by
  have hlen : (st.rolls.map Prod.snd).length = n := by rw [List.length_map, hn]
  have hslen : sorted.length = n := by rw [hsorted, sortRollsDesc_length, hlen]
  obtain ⟨w, ws, hws⟩ : ∃ w ws, sorted = w :: ws := by
    cases hsor : sorted with
    | nil => rw [hsor] at hslen; simp at hslen; omega
    | cons w ws => exact ⟨w, ws, rfl⟩
  obtain ⟨cfgF, rollsF, roundsF⟩ := st
  simp only at hc hn hsorted hlen
  subst hc
  have h0 : ¬ ((rollsF.map Prod.snd).length = 0) := by
    rw [hlen]; omega
  unfold endRound
  simp only [if_neg (show ¬ (config.status ≠ TournamentStatus.active) by simp [hact]),
    if_neg h0]
  rw [← hsorted]
  simp only [hslen, ← hec]
  rw [if_pos hrem]
  refine ⟨rfl, rfl, ⟨w, by rw [hws]; rfl, ?_⟩, ?_⟩
  · show "Tournament complete! Winner: " ++
      ((sorted.head?).map UserRoll.username).getD "" =
      "Tournament complete! Winner: " ++ w.username
    rw [hws]
    rfl
  · intro k hk
    show getRound (setRound roundsF config.currentRound _) k = getRound roundsF k
    exact getRound_setRound_ne _ _ _ _ hk
/-! ### Concrete engine states used by witnesses and counterexamples -/

/-- An active 3-roll tournament with one stored roll of 50 for user `a`. -/
def cfgA : TournamentConfig :=
  ⟨"T", "Cup", 100, 3, 10000, 1, TournamentStatus.active, "ch", 1, 1⟩

def stA : EngineState :=
  ⟨some cfgA, [("a", ⟨"a", "Alice", 50, 1000, 1⟩)], [(1, ⟨1, 500, none, [], [], none⟩)]⟩

/-- A completed tournament. -/
def cfgDone : TournamentConfig :=
  ⟨"T", "Cup", 100, 3, 10000, 1, TournamentStatus.completed, "ch", 1, 1⟩

def stDone : EngineState := ⟨some cfgDone, [], []⟩

/-- **C6 counterexample**: `cancelTournament` on an already-`completed`
tournament returns `true` and rewrites the status to `cancelled`, so the
status of a terminal tournament is not preserved by every engine
operation. -/
theorem cancelTournament_on_completed_counterexample :
    stDone.config = some cfgDone ∧
    cfgDone.status = TournamentStatus.completed ∧
    (cancelTournament stDone 5).1 = true ∧
    (cancelTournament stDone 5).2.config =
      some { cfgDone with status := TournamentStatus.cancelled, updatedAt := 5 } :=
  ⟨rfl, rfl, rfl, rfl⟩

/-- **C6 amended**: `processUserRoll` and `endRound` refuse any tournament
whose status is not `active` and leave the state unchanged — so `completed`
and `cancelled` are terminal for them — but `cancelTournament` has no such
guard: it returns `false` exactly when the tournament is missing, and
otherwise unconditionally sets the status to `cancelled`, even on a
tournament that is already `completed` or `cancelled`. -/
theorem cancelTournament_unguarded (st : EngineState) (config : TournamentConfig)
    (now : Nat) (hc : st.config = some config)
    (hna : config.status ≠ TournamentStatus.active) :
    (∀ u un t v, processUserRoll st u un t v =
      (⟨false, none, "Tournament is not active"⟩, st)) ∧
    (∀ pct t, endRound st pct t = (⟨false, "Tournament is not active", none⟩, st)) ∧
    (∀ stN : EngineState, stN.config = none → cancelTournament stN now = (false, stN)) ∧
    (cancelTournament st now).1 = true ∧
    (cancelTournament st now).2.config =
      some { config with status := TournamentStatus.cancelled, updatedAt := now } := by
  obtain ⟨cfgF, rollsF, roundsF⟩ := st
  simp only at hc
  subst hc
  refine ⟨?_, ?_, ?_, rfl, rfl⟩
  · intro u un t v
    unfold processUserRoll
    dsimp only
    rw [if_pos hna]
  · intro pct t
    unfold endRound
    dsimp only
    rw [if_pos hna]
  · intro stN hN
    obtain ⟨cfgN, rollsN, roundsN⟩ := stN
    simp only at hN
    subst hN
    rfl

/-- **C6 amended, witness**: instantiated on the completed tournament
`stDone`. -/
theorem cancelTournament_unguarded_witness :
    (cancelTournament stDone 5).1 = true ∧
    (cancelTournament stDone 5).2.config =
      some { cfgDone with status := TournamentStatus.cancelled, updatedAt := 5 } :=
  ⟨(cancelTournament_unguarded stDone cfgDone 5 rfl (by decide)).2.2.2.1,
   (cancelTournament_unguarded stDone cfgDone 5 rfl (by decide)).2.2.2.2⟩

/-- **C9 counterexample**: a non-improving draw (30 against a stored best
of 50, drawn at time 2000) succeeds but leaves the stored `timestamp` at
1000, the time of the earlier improving roll — not at the time of this
call. -/
theorem processUserRoll_timestamp_counterexample :
    (processUserRoll stA "a" "Alice" 2000 30).1.success = true ∧
    hgetRoll (processUserRoll stA "a" "Alice" 2000 30).2.rolls "a" =
      some ⟨"a", "Alice", 50, 1000, 2⟩ ∧
    (1000 : Nat) ≠ 2000 :=
  ⟨rfl, rfl, by decide⟩

/-- **C9 amended**: after a successful `processUserRoll`, the stored
`timestamp` equals the call time exactly when the draw was persisted (first
roll, or a draw exceeding the stored best); a non-improving draw re-saves
the existing record with only `rollsUsed` incremented, so the stored
`timestamp` remains that of the last improving roll. -/
theorem processUserRoll_timestamp_semantics
    (st : EngineState) (config : TournamentConfig) (u un : String) (now v : Nat)
    (hc : st.config = some config)
    (hact : config.status = TournamentStatus.active)
    (hdl : now ≤ config.deadline) :
    (hgetRoll st.rolls u = none →
      hgetRoll (processUserRoll st u un now v).2.rolls u =
        some ⟨u, un, v, now, 1⟩) ∧
    (∀ e, hgetRoll st.rolls u = some e → e.rollsUsed < config.rollLimit →
      e.roll < v →
      hgetRoll (processUserRoll st u un now v).2.rolls u =
        some ⟨u, un, v, now, e.rollsUsed + 1⟩) ∧
    (∀ e, hgetRoll st.rolls u = some e → e.rollsUsed < config.rollLimit →
      v ≤ e.roll →
      hgetRoll (processUserRoll st u un now v).2.rolls u =
        some { e with rollsUsed := e.rollsUsed + 1 }) := by
  obtain ⟨cfgF, rollsF, roundsF⟩ := st
  simp only at hc
  subst hc
  refine ⟨?_, ?_, ?_⟩
  · intro hn
    unfold processUserRoll
    simp only [hn]
    rw [if_neg (by simp [hact]), if_neg (by omega)]
    exact hgetRoll_hsetRoll_self _ _ _
  · intro e he hlim hlt
    unfold processUserRoll
    simp only [he]
    rw [if_neg (by simp [hact]), if_neg (by omega), if_neg (by omega),
      if_pos hlt]
    exact hgetRoll_hsetRoll_self _ _ _
  · intro e he hlim hv
    unfold processUserRoll
    simp only [he]
    rw [if_neg (by simp [hact]), if_neg (by omega), if_neg (by omega),
      if_neg (by omega)]
    exact hgetRoll_hsetRoll_self _ _ _

/-- **C9 amended, witness**: the non-improving draw 30 at time 2000 against
the stored best 50 keeps timestamp 1000. -/
theorem processUserRoll_timestamp_semantics_witness :
    hgetRoll (processUserRoll stA "a" "Alice" 2000 30).2.rolls "a" =
      some ⟨"a", "Alice", 50, 1000, 2⟩ :=
  (processUserRoll_timestamp_semantics stA cfgA "a" "Alice" 2000 30 rfl rfl
      (by decide)).2.2
    ⟨"a", "Alice", 50, 1000, 1⟩ rfl (by decide) (by decide)

/-- A 10-participant active tournament (rolls 5, 15, ..., 95). -/
def cfgW10 : TournamentConfig :=
  ⟨"T10", "Cup", 100, 3, 10000, 1, TournamentStatus.active, "ch", 1, 1⟩

def rollsW10 : List (String × UserRoll) :=
  [("0", ⟨"0", "u0", 5, 1000, 1⟩), ("1", ⟨"1", "u1", 15, 1001, 1⟩),
   ("2", ⟨"2", "u2", 25, 1002, 1⟩), ("3", ⟨"3", "u3", 35, 1003, 1⟩),
   ("4", ⟨"4", "u4", 45, 1004, 1⟩), ("5", ⟨"5", "u5", 55, 1005, 1⟩),
   ("6", ⟨"6", "u6", 65, 1006, 1⟩), ("7", ⟨"7", "u7", 75, 1007, 1⟩),
   ("8", ⟨"8", "u8", 85, 1008, 1⟩), ("9", ⟨"9", "u9", 95, 1009, 1⟩)]

def stW10 : EngineState :=
  ⟨some cfgW10, rollsW10, [(1, ⟨1, 500, none, [], [], none⟩)]⟩

def sortedW10 : List UserRoll := sortRollsDesc (stW10.rolls.map Prod.snd)

/-- C1 witness: 10 participants at the default 50% yield exactly 5
eliminated entries — the five lowest rolls. -/
theorem endRound_eliminates_bottom_witness :
    (endRound stW10 50 2000).1.success = true ∧
    (endRound stW10 50 2000).1.eliminated = some ["4", "3", "2", "1", "0"] ∧
    ((sortedW10.drop (10 - 5)).map UserRoll.userId).length = 5 := by
  have h := endRound_elimination stW10 cfgW10 50 2000 10 5 sortedW10 rfl rfl rfl
    (by decide) (by decide) (by decide) (by decide) (by decide) (by decide)
  exact ⟨h.1, by rw [h.2.1]; decide, h.2.2.1⟩

/-- A single-participant active tournament. -/
def cfgW1 : TournamentConfig :=
  ⟨"T1", "Solo", 100, 1, 10000, 1, TournamentStatus.active, "ch", 1, 1⟩

def stW1 : EngineState :=
  ⟨some cfgW1, [("a", ⟨"a", "Alice", 42, 1000, 1⟩)],
   [(1, ⟨1, 500, none, [], [], none⟩)]⟩

def sortedW1 : List UserRoll := sortRollsDesc (stW1.rolls.map Prod.snd)

/-- C3 witness: `endRound` with exactly one participant at 50% eliminates
nobody (`eliminateCount = 0`, `remainingPlayers = 1`) and completes the
tournament with that participant as winner. -/
theorem endRound_completes_witness :
    (endRound stW1 50 2000).1.success = true ∧
    (endRound stW1 50 2000).2.config =
      some { cfgW1 with status := TournamentStatus.completed, updatedAt := 2000 } ∧
    (endRound stW1 50 2000).1.message = "Tournament complete! Winner: Alice" := by
  have h := endRound_completes_when_at_most_one_remains stW1 cfgW1 50 2000 1 0 sortedW1
    rfl rfl rfl (by decide) (by decide) (by decide) (by decide) (by decide)
  refine ⟨h.1, h.2.1, ?_⟩
  obtain ⟨w, hw, hm⟩ := h.2.2.1
  rw [hm]
  have hh : sortedW1.head? = some (⟨"a", "Alice", 42, 1000, 1⟩ : UserRoll) := by decide
  rw [hh] at hw
  injection hw with hww
  rw [← hww]
  rfl


/-! ## Claim theorems: tournament store -/

/-- A connected client whose every command fails with an infrastructure
error. -/
def downCl : Client := ⟨true, ⟨[], []⟩⟩

/-- A well-formed user roll used in store-level examples. -/
def rollGood : UserRoll := ⟨"u1", "Alice", 10, 1, 1⟩

/-- A tournament config record used in store-level examples. -/
def cfgT : TournamentConfig :=
  ⟨"t1", "Cup", 100, 3, 10000, 1, TournamentStatus.active, "ch", 1, 1⟩

/-- C4 counterexample: with a connected client whose commands all fail,
`getTournamentConfig` does not re-raise the fault — the catch swallows it
into `Except.ok none` (the `null` result), so not every store operation
propagates infrastructure faults. -/
theorem getTournamentConfig_swallows_counterexample :
    downCl.down = true ∧
    getTournamentConfig (some downCl) "t1" = Except.ok none :=
  ⟨rfl, rfl⟩

/-- C4 amended: the save and delete operations of the tournament store
re-raise infrastructure faults of the backing client, but the read
operations do not: get returns `null` and get-all/list return the empty
array when the client faults. The missing-client error raised by
`requireRedisClient` sits outside every try/catch and propagates from all
operations. -/
theorem tournamentStore_fault_propagation (cl : Client) (hdown : cl.down = true)
    (config : TournamentConfig) (tid uid : String) (rn : Nat) (roll : UserRoll)
    (round : RoundData) (stats : TournamentStats) :
    saveTournamentConfig (some cl) config = Except.error StoreErr.infra ∧
    deleteTournamentConfig (some cl) tid = Except.error StoreErr.infra ∧
    saveUserRoll (some cl) tid uid roll = Except.error StoreErr.infra ∧
    deleteAllUserRolls (some cl) tid = Except.error StoreErr.infra ∧
    saveRoundData (some cl) tid rn round = Except.error StoreErr.infra ∧
    saveTournamentStats (some cl) tid stats = Except.error StoreErr.infra ∧
    getTournamentConfig (some cl) tid = Except.ok none ∧
    getUserRoll (some cl) tid uid = Except.ok none ∧
    getRoundData (some cl) tid rn = Except.ok none ∧
    getTournamentStats (some cl) tid = Except.ok none ∧
    getAllUserRolls (some cl) tid = Except.ok [] ∧
    getAllRoundData (some cl) tid = Except.ok [] ∧
    listActiveTournaments (some cl) = Except.ok [] ∧
    getTournamentConfig none tid = Except.error StoreErr.unavailable ∧
    saveTournamentConfig none config = Except.error StoreErr.unavailable := by
  obtain ⟨down, stc⟩ := cl
  simp only at hdown
  subst hdown
  exact ⟨rfl, rfl, rfl, rfl, rfl, rfl, rfl, rfl, rfl, rfl, rfl, rfl, rfl, rfl, rfl⟩

/-- C4 amended, witness: instantiated on the failing client `downCl` and
concrete records. -/
theorem tournamentStore_fault_propagation_witness :
    saveTournamentConfig (some downCl) cfgT = Except.error StoreErr.infra ∧
    getTournamentConfig (some downCl) "t1" = Except.ok none ∧
    getAllUserRolls (some downCl) "t1" = Except.ok [] :=
  ⟨(tournamentStore_fault_propagation downCl rfl cfgT "t1" "u1" 1 rollGood
      ⟨1, 500, none, [], [], none⟩
      ⟨1, 1, 0, 1, 10, rollGood, rollGood⟩).1,
   (tournamentStore_fault_propagation downCl rfl cfgT "t1" "u1" 1 rollGood
      ⟨1, 500, none, [], [], none⟩
      ⟨1, 1, 0, 1, 10, rollGood, rollGood⟩).2.2.2.2.2.2.1,
   (tournamentStore_fault_propagation downCl rfl cfgT "t1" "u1" 1 rollGood
      ⟨1, 500, none, [], [], none⟩
      ⟨1, 1, 0, 1, 10, rollGood, rollGood⟩).2.2.2.2.2.2.2.2.2.2.1⟩
/-- `jsonParse` succeeds exactly on non-corrupt blobs, returning them. -/
theorem jsonParse_ok (b : Blob) (h : b ≠ Blob.corrupt) : jsonParse b = Except.ok b := by
  cases b with
  | corrupt => exact absurd rfl h
  | config c => rfl
  | roll r => rfl
  | round rd => rfl
  | stats s => rfl

/-- If every field value parses, the `getAllUserRolls` loop returns all of
them in order. -/
theorem parseEntries_ok :
    ∀ fields : List (String × Blob),
      (∀ f ∈ fields, f.2 ≠ Blob.corrupt) →
      parseEntries fields = Except.ok (fields.map Prod.snd)
  | [], _ => rfl
  | f :: rest, h => by
    unfold parseEntries
    rw [jsonParse_ok f.2 (h f (List.mem_cons_self f rest)),
      parseEntries_ok rest (fun g hg => h g (List.mem_cons_of_mem f hg))]
    rfl

/-- If any field value is corrupt, the `getAllUserRolls` loop throws. -/
theorem parseEntries_error :
    ∀ fields : List (String × Blob),
      (∃ f ∈ fields, f.2 = Blob.corrupt) →
      ∃ e, parseEntries fields = Except.error e
  | f :: rest, h => by
    unfold parseEntries
    by_cases hf : f.2 = Blob.corrupt
    · rw [hf]
      exact ⟨StoreErr.parse, rfl⟩
    · rw [jsonParse_ok f.2 hf]
      obtain ⟨g, hg, hgc⟩ := h
      rcases List.mem_cons.mp hg with hgf | hgr
      · exact absurd (hgf ▸ hgc) hf
      · obtain ⟨e, he⟩ := parseEntries_error rest ⟨g, hgr, hgc⟩
        rw [he]
        exact ⟨e, rfl⟩

/-- A roll map holding one well-formed and one corrupt entry. -/
def clMixed : Client :=
  ⟨false, ⟨[], [("tournament:rolls:T",
    [("u1", Blob.roll rollGood), ("u2", Blob.corrupt)])]⟩⟩

/-- C5 counterexample: on a roll map with a well-formed entry (`u1`) and a
corrupt entry (`u2`), `getAllUserRolls` returns the empty list — it does
not return the correctly-deserialized entry, so individual failures are
not skipped but abort the whole read. -/
theorem getAllUserRolls_aborts_counterexample :
    lookupKV clMixed.st.hashes "tournament:rolls:T" =
      some [("u1", Blob.roll rollGood), ("u2", Blob.corrupt)] ∧
    getAllUserRolls (some clMixed) "T" = Except.ok [] :=
  ⟨rfl, rfl⟩

/-- C5 amended: `getAllUserRolls` deserializes the whole map inside a
single try/catch, so it is all-or-nothing: when every entry deserializes
it returns all of them in insertion order, and when any entry fails to
deserialize the catch converts the abandoned read into the empty list —
the correctly-deserialized entries are not returned. -/
theorem getAllUserRolls_all_or_nothing (cl : Client) (tid : String)
    (fields : List (String × Blob))
    (hup : cl.down = false)
    (hh : lookupKV cl.st.hashes ("tournament:rolls:" ++ tid) = some fields) :
    ((∀ f ∈ fields, f.2 ≠ Blob.corrupt) →
      getAllUserRolls (some cl) tid = Except.ok (fields.map Prod.snd)) ∧
    ((∃ f ∈ fields, f.2 = Blob.corrupt) →
      getAllUserRolls (some cl) tid = Except.ok []) := by
  have hget : Client.hgetall cl ("tournament:rolls:" ++ tid) = Except.ok fields := by
    unfold Client.hgetall
    rw [hup]
    simp only [Bool.false_eq_true, if_false, hh]
  constructor
  · intro hok
    unfold getAllUserRolls
    dsimp only
    rw [hget]
    dsimp only
    rw [parseEntries_ok fields hok]
  · intro hbad
    obtain ⟨e, he⟩ := parseEntries_error fields hbad
    unfold getAllUserRolls
    dsimp only
    rw [hget]
    dsimp only
    rw [he]

/-- C5 amended, witness: on the mixed map the read degrades to `[]`; on a
map with only the well-formed entry the read returns it. -/
theorem getAllUserRolls_all_or_nothing_witness :
    getAllUserRolls (some clMixed) "T" = Except.ok [] :=
  (getAllUserRolls_all_or_nothing clMixed "T"
      [("u1", Blob.roll rollGood), ("u2", Blob.corrupt)] rfl rfl).2
    ⟨("u2", Blob.corrupt), by decide, rfl⟩
/-! ### Lemmas about the `listActiveTournaments` scan loop -/

/-- When a key is bound in the string keyspace to a parseable blob, the
loop reads and keeps it; running over such keys only, the loop returns
exactly their values. -/
theorem readAll_ok (cl : Client) (hup : cl.down = false) :
    ∀ ks : List String,
      (∀ k ∈ ks, ∃ b, lookupKV cl.st.strings k = some b ∧ b ≠ Blob.corrupt) →
      readAll cl ks = Except.ok (ks.filterMap (fun k => lookupKV cl.st.strings k))
  | [], _ => rfl
  | k :: rest, h => by
    obtain ⟨b, hb, hbc⟩ := h k (List.mem_cons_self k rest)
    have hget : Client.get cl k = Except.ok (some b) := by
      unfold Client.get
      rw [hup]
      simp only [Bool.false_eq_true, if_false, hb]
    unfold readAll
    rw [hget]
    dsimp only
    rw [jsonParse_ok b hbc,
      readAll_ok cl hup rest (fun g hg => h g (List.mem_cons_of_mem k hg))]
    dsimp only
    rw [List.filterMap_cons_some hb]

/-- If any key in the list makes `get` fault, the whole loop throws. -/
theorem readAll_error_of_get_error (cl : Client) :
    ∀ (ks : List String) (k : String), k ∈ ks →
      (∃ er, Client.get cl k = Except.error er) →
      ∃ e, readAll cl ks = Except.error e
  | k0 :: rest, k, hmem, her => by
    unfold readAll
    cases hg : Client.get cl k0 with
    | error e => exact ⟨e, rfl⟩
    | ok data =>
      rcases List.mem_cons.mp hmem with rfl | hmr
      · obtain ⟨er, her⟩ := her
        rw [her] at hg
        cases hg
      · obtain ⟨e, he⟩ := readAll_error_of_get_error cl rest k hmr her
        cases data with
        | none => exact ⟨e, he⟩
        | some b =>
          cases hp : jsonParse b with
          | error ep =>
            refine ⟨ep, ?_⟩
            dsimp only
            rw [hp]
          | ok b2 =>
            refine ⟨e, ?_⟩
            dsimp only
            rw [hp, he]

/-- First-occurrence lookup of a member, when keys are unique. -/
theorem lookupKV_of_mem_nodup {ν : Type} :
    ∀ (l : List (String × ν)), (l.map Prod.fst).Nodup →
      ∀ p ∈ l, lookupKV l p.1 = some p.2
  | q :: rest, hnd, p, hp => by
    rcases List.mem_cons.mp hp with rfl | hpr
    · unfold lookupKV
      rw [List.find?_cons_of_pos _ (by simp)]
      rfl
    · have hnd' : q.1 ∉ rest.map Prod.fst ∧ (rest.map Prod.fst).Nodup := by
        rw [List.map_cons, List.nodup_cons] at hnd
        exact hnd
      have hq : ¬ (q.1 = p.1) := by
        intro hh
        exact hnd'.1 (hh ▸ List.mem_map.mpr ⟨p, hpr, rfl⟩)
      unfold lookupKV
      rw [List.find?_cons_of_neg _ (by simpa using hq)]
      exact lookupKV_of_mem_nodup rest hnd'.2 p hpr
/-- A stats record used in listing examples. -/
def statsT : TournamentStats := ⟨1, 1, 0, 1, 10, rollGood, rollGood⟩

/-- A keyspace holding a config and a stats record (both string-typed). -/
def clStats : Client :=
  ⟨false, ⟨[("tournament:t1", Blob.config cfgT),
            ("tournament:stats:t1", Blob.stats statsT)], []⟩⟩

/-- A keyspace holding a config and a rolls hash. -/
def clRolls : Client :=
  ⟨false, ⟨[("tournament:t1", Blob.config cfgT)],
           [("tournament:rolls:t1", [("u1", Blob.roll rollGood)])]⟩⟩

/-- C7 counterexample: the `tournament:*` scan includes the stats record in
the listing next to the config, and the presence of a rolls hash key
(hash-typed, same prefix) degrades the whole listing to the empty list
even though a valid config is stored. -/
theorem listActiveTournaments_namespace_counterexample :
    listActiveTournaments (some clStats) =
      Except.ok [Blob.config cfgT, Blob.stats statsT] ∧
    listActiveTournaments (some clRolls) = Except.ok [] :=
  ⟨rfl, rfl⟩

/-- C7 amended: `listActiveTournaments` scans every key with prefix
`tournament:` — the rolls, round and stats namespaces included. When no
hash-typed key carries the prefix and every prefixed string record parses,
it returns the values of all prefixed string keys in scan order, so round
and stats records are included as if they were configs; when a hash-typed
key (a rolls map) carries the prefix and is not shadowed by a string key,
the `WRONGTYPE` fault from `get` on it is caught by the single try/catch
and the whole listing degrades to the empty list. -/
theorem listActiveTournaments_scans_whole_namespace (cl : Client)
    (hup : cl.down = false)
    (hnd : (cl.st.strings.map Prod.fst).Nodup) :
    ((∀ h ∈ cl.st.hashes, startsWithL h.1 "tournament:" = false) →
     (∀ s ∈ cl.st.strings, startsWithL s.1 "tournament:" = true →
        s.2 ≠ Blob.corrupt) →
      listActiveTournaments (some cl) =
        Except.ok ((cl.st.strings.filter
          (fun p => startsWithL p.1 "tournament:")).map Prod.snd)) ∧
    (∀ hk ∈ cl.st.hashes, startsWithL hk.1 "tournament:" = true →
      lookupKV cl.st.strings hk.1 = none →
      listActiveTournaments (some cl) = Except.ok []) := by
  constructor
  · intro hnoh hnoc
    have hkeys : Client.keysWith cl "tournament:" =
        Except.ok ((cl.st.strings.filter
          (fun p => startsWithL p.1 "tournament:")).map Prod.fst) := by
      unfold Client.keysWith
      rw [hup]
      simp only [Bool.false_eq_true, if_false]
      rw [List.filter_append]
      have h2 : (cl.st.hashes.map Prod.fst).filter
          (fun k => startsWithL k "tournament:") = [] := by
        rw [List.filter_eq_nil_iff]
        intro a ha
        obtain ⟨h, hh, rfl⟩ := List.mem_map.mp ha
        simp [hnoh h hh]
      rw [h2, List.append_nil, List.filter_map]
      rfl
    have hread : readAll cl ((cl.st.strings.filter
        (fun p => startsWithL p.1 "tournament:")).map Prod.fst) =
        Except.ok (((cl.st.strings.filter
          (fun p => startsWithL p.1 "tournament:")).map Prod.fst).filterMap
            (fun k => lookupKV cl.st.strings k)) := by
      apply readAll_ok cl hup
      intro k hkm
      obtain ⟨q, hq, rfl⟩ := List.mem_map.mp hkm
      have hqs := List.mem_filter.mp hq
      exact ⟨q.2, lookupKV_of_mem_nodup cl.st.strings hnd q hqs.1,
        hnoc q hqs.1 hqs.2⟩
    unfold listActiveTournaments
    dsimp only
    rw [hkeys]
    dsimp only
    rw [hread]
    dsimp only
    rw [List.filterMap_map]
    have hcg : ((cl.st.strings.filter
        (fun p => startsWithL p.1 "tournament:")).filterMap
          ((fun k => lookupKV cl.st.strings k) ∘ Prod.fst)) =
        ((cl.st.strings.filter
          (fun p => startsWithL p.1 "tournament:")).filterMap
            (some ∘ Prod.snd)) := by
      apply List.filterMap_congr
      intro q hq
      have hqs := List.mem_filter.mp hq
      exact lookupKV_of_mem_nodup cl.st.strings hnd q hqs.1
    rw [hcg, List.filterMap_eq_map]
  · intro hk hmem hpfx hnos
    have hgetErr : Client.get cl hk.1 = Except.error StoreErr.wrongtype := by
      unfold Client.get
      rw [hup]
      simp only [Bool.false_eq_true, if_false, hnos]
      have hs : (lookupKV cl.st.hashes hk.1).isSome = true := by
        unfold lookupKV
        have hfs : (List.find? (fun p => p.1 = hk.1) cl.st.hashes).isSome = true := by
          rw [List.find?_isSome]
          exact ⟨hk, hmem, by simp⟩
        cases hfind : List.find? (fun p => p.1 = hk.1) cl.st.hashes with
        | none => rw [hfind] at hfs; simp at hfs
        | some q => rfl
      rw [if_pos hs]
    have hkm : hk.1 ∈ (cl.st.strings.map Prod.fst ++
        cl.st.hashes.map Prod.fst).filter (fun k => startsWithL k "tournament:") := by
      apply List.mem_filter.mpr
      exact ⟨List.mem_append.mpr (Or.inr (List.mem_map.mpr ⟨hk, hmem, rfl⟩)), hpfx⟩
    obtain ⟨e, he⟩ := readAll_error_of_get_error cl _ hk.1 hkm ⟨_, hgetErr⟩
    have hkeys : Client.keysWith cl "tournament:" =
        Except.ok ((cl.st.strings.map Prod.fst ++
          cl.st.hashes.map Prod.fst).filter (fun k => startsWithL k "tournament:")) := by
      unfold Client.keysWith
      rw [hup]
      simp only [Bool.false_eq_true, if_false]
    unfold listActiveTournaments
    dsimp only
    rw [hkeys]
    dsimp only
    rw [he]

/-- C7 amended, witness: on `clStats` the listing returns both string
records (the stats record included); on `clRolls` the rolls hash empties
it. -/
theorem listActiveTournaments_scans_whole_namespace_witness :
    listActiveTournaments (some clStats) =
      Except.ok ((clStats.st.strings.filter
        (fun p => startsWithL p.1 "tournament:")).map Prod.snd) ∧
    listActiveTournaments (some clRolls) = Except.ok [] :=
  ⟨(listActiveTournaments_scans_whole_namespace clStats rfl (by decide)).1
      (by intro h hh; cases hh) (by decide),
   (listActiveTournaments_scans_whole_namespace clRolls rfl (by decide)).2
      ("tournament:rolls:t1", [("u1", Blob.roll rollGood)])
      (by decide) (by decide) rfl⟩


/-! ## Claim theorems: storage facade and game-state manager -/

/-- Lookup on a tier keyspace. -/
def getKV (m : List (String × StoredVal)) (k : String) : Option StoredVal :=
  (m.find? (fun p => p.1 = k)).map Prod.snd

/-- C8: `storeData` writes to the cache tier first; it additionally
attempts the disk tier exactly when the cache write failed or
`persistToDisk` is set (the disk tier is untouched otherwise); it returns
`true` iff at least one attempted write succeeded and `false` only when
both failed. The function is total — every failure path returns a boolean,
none raises. -/
theorem storeData_tiering (st : FacadeState) (key : String) (value : StoredVal)
    (ttl : Option Nat) (persistToDisk : Bool) :
    (storeData st key value ttl persistToDisk).1 =
      (st.cacheUp || ((persistToDisk || !st.cacheUp) && st.diskUp)) ∧
    (storeData st key value ttl persistToDisk).2.cache =
      (if st.cacheUp then setKV st.cache key value else st.cache) ∧
    (storeData st key value ttl persistToDisk).2.disk =
      (if (persistToDisk || !st.cacheUp) && st.diskUp then
        setKV st.disk ("cache/" ++ key ++ ".txt") value
      else st.disk) := by
  obtain ⟨cacheUp, diskUp, cache, disk, logs⟩ := st
  cases cacheUp <;> cases diskUp <;> cases persistToDisk <;> exact ⟨rfl, rfl, rfl⟩

/-- C8 witness: with the cache tier unavailable and `persistToDisk = true`,
the call still returns `true` when the disk write succeeds, and the value
lands on disk. -/
theorem storeData_tiering_witness :
    (storeData ⟨false, true, [], [], []⟩ "k" (StoredVal.raw "v") none true).1 = true ∧
    (storeData ⟨false, true, [], [], []⟩ "k" (StoredVal.raw "v") none true).2.disk =
      setKV [] "cache/k.txt" (StoredVal.raw "v") :=
  ⟨(storeData_tiering ⟨false, true, [], [], []⟩ "k" (StoredVal.raw "v") none true).1,
   (storeData_tiering ⟨false, true, [], [], []⟩ "k" (StoredVal.raw "v") none true).2.2⟩

/-- C10: `createGame` builds the fresh pending `GameState` (empty player
list, `data = initialData`) and stores it without reading the existing
slot: whenever a tier accepts the write, that tier's slot for
`game:<id>:state` afterwards holds the fresh state — any previously stored
game state for the same id is silently overwritten — and the returned
boolean is exactly the storage write's success (`true` iff some tier
accepted it; with the forced disk persistence of `storeGameState`, that is
`cacheUp || diskUp`). -/
theorem createGame_overwrites (st : FacadeState) (gameId ty : String)
    (initialData : List (String × String)) :
    (createGame st gameId ty initialData).1 = (st.cacheUp || st.diskUp) ∧
    (createGame st gameId ty initialData).1 =
      (storeGameState st gameId
        ⟨gameId, ty, GStatus.pending, [], none, none, initialData⟩).1 ∧
    (st.cacheUp = true →
      getKV (createGame st gameId ty initialData).2.cache
          ("game:" ++ gameId ++ ":state") =
        some (StoredVal.jsonGame ⟨gameId, ty, GStatus.pending, [], none, none, initialData⟩)) ∧
    (st.diskUp = true →
      getKV (createGame st gameId ty initialData).2.disk
          ("cache/" ++ ("game:" ++ gameId ++ ":state") ++ ".txt") =
        some (StoredVal.jsonGame ⟨gameId, ty, GStatus.pending, [], none, none, initialData⟩)) := by
  obtain ⟨cacheUp, diskUp, cache, disk, logs⟩ := st
  have hsetget : ∀ (m : List (String × StoredVal)) (k : String) (v : StoredVal),
      getKV (setKV m k v) k = some v := by
    intro m k v
    unfold getKV setKV
    rw [find?_upsert_self]
    rfl
  cases cacheUp <;> cases diskUp <;> refine ⟨rfl, rfl, ?_, ?_⟩ <;> intro h
  · cases h
  · cases h
  · cases h
  · exact hsetget _ _ _
  · exact hsetget _ _ _
  · cases h
  · exact hsetget _ _ _
  · exact hsetget _ _ _

/-- C10 witness: creating `g1` over a slot that already holds an active
game replaces it with the fresh pending state and returns `true`. -/
theorem createGame_overwrites_witness :
    (createGame ⟨true, true,
        [("game:g1:state", StoredVal.jsonGame ⟨"g1", "old", GStatus.active, ["p"], none, none, []⟩)],
        [], []⟩ "g1" "quiz" []).1 = true ∧
    getKV (createGame ⟨true, true,
        [("game:g1:state", StoredVal.jsonGame ⟨"g1", "old", GStatus.active, ["p"], none, none, []⟩)],
        [], []⟩ "g1" "quiz" []).2.cache "game:g1:state" =
      some (StoredVal.jsonGame ⟨"g1", "quiz", GStatus.pending, [], none, none, []⟩) :=
  ⟨(createGame_overwrites ⟨true, true,
      [("game:g1:state", StoredVal.jsonGame ⟨"g1", "old", GStatus.active, ["p"], none, none, []⟩)],
      [], []⟩ "g1" "quiz" []).1,
   (createGame_overwrites ⟨true, true,
      [("game:g1:state", StoredVal.jsonGame ⟨"g1", "old", GStatus.active, ["p"], none, none, []⟩)],
      [], []⟩ "g1" "quiz" []).2.2.1 rfl⟩


/-- C2 witness: on `stA` (stored best 50, 1 of 3 rolls used, active, within
deadline) the losing draw 30 at time 1500 increments `rollsUsed` to 2,
keeps the stored roll 50, and reports the losing draw in the message. -/
theorem processUserRoll_roll_limit_and_best_of_witness :
    (processUserRoll stA "a" "Alice" 1500 30).2.rolls =
      hsetRoll stA.rolls "a" ⟨"a", "Alice", 50, 1000, 2⟩ ∧
    (processUserRoll stA "a" "Alice" 1500 30).1.success = true ∧
    (processUserRoll stA "a" "Alice" 1500 30).1.message =
      "Rolled 30, but your previous roll of 50 was better. (2/3 rolls used)" := by
  have h := (processUserRoll_roll_limit_and_best_of stA cfgA "a" "Alice" rfl
      (by decide)
      (by
        intro e he
        rw [show hgetRoll stA.rolls "a" =
          some (⟨"a", "Alice", 50, 1000, 1⟩ : UserRoll) from rfl] at he
        injection he with hh
        rw [← hh]
        decide)).2.2.2 1500 30 ⟨"a", "Alice", 50, 1000, 1⟩ rfl rfl (by decide)
      (by decide) (by decide)
  exact h

end Iddqd
